import Mathlib

/-!
Verification development for the `midi-to-dataframe` library
(`midi_to_dataframe/midi_reader.py`, `midi_to_dataframe/note_mapper.py`,
`midi_to_dataframe/midi_writer.py`).

Shallow embedding conventions:
* Python `int` MIDI ticks are `ℕ` (they are absolute, non-negative after
  `make_ticks_abs`); tick differences that may be negative are `ℤ`.
* Python `float` arithmetic on durations/beats is modelled exactly over `ℚ`.
  All duration values the library actually produces are dyadic rationals with
  at most three decimal places, which binary floats represent exactly, so the
  `ℚ` model agrees with the float computation at every value used below.
  Python's `round` (banker's rounding, ties to even) is `pyRound`.
* Python `dict` / `OrderedDict` objects are association lists in insertion
  order: assigning to an existing key replaces its value in place, assigning
  a fresh key appends at the end.  `sorted(d.items())` is `sortByKey`.
* The textual note representation `"{instrument}_{note}_{duration}"` is kept
  structured as a `NoteToken` (the three `_`-joined fields); the `"rest"`
  sentinel string that shares the `notes` column with token lists is the
  `NotesField.rest` constructor.
* A Python exception escaping a function is an `Except.error`; the reader's
  `try/except (TypeError, RuntimeWarning)` around `midi.read_midifile` is the
  `ReadFailure.typeErrorOrRuntimeWarning` case (caught), while other
  exceptions raised by the MIDI backend (e.g. `IOError` for a missing file)
  are `ReadFailure.ioError` (uncaught).
* The extraction flags (`set_extract_*`) are left at their defaults (all
  `True`), so every column is produced.
-/

/-- Python `TimeSignature = namedtuple('TimeSignature', 'numerator denominator')`. -/
structure TimeSignature where
  numerator : ℕ
  denominator : ℕ
deriving DecidableEq, Repr

/-- Python `DEFAULT_MIDI_TIME_SIGNATURE = TimeSignature(4, 4)`. -/
def DEFAULT_MIDI_TIME_SIGNATURE : TimeSignature := ⟨4, 4⟩

/-- Python `DEFAULT_MIDI_BPM = 120`. -/
def DEFAULT_MIDI_BPM : ℚ := 120

/-- Python `MIDI_DRUM_CHANNEL = 9`. -/
def MIDI_DRUM_CHANNEL : ℕ := 9

/-- Python `DEFAULT_MIDI_PROGRAM_NUM = -1`. -/
def DEFAULT_MIDI_PROGRAM_NUM : ℤ := -1

/-- One `"{instrument}_{note_symbol}_{duration}"` token, kept structured. -/
structure NoteToken where
  instrument : String
  symbol : String
  duration : ℚ
deriving DecidableEq, Repr

/-- Value stored in the `notes` column of a row: either a (comma-joined)
nonempty token list or the literal `"rest"` sentinel. -/
inductive NotesField where
  | rest : NotesField
  | tokens : List NoteToken → NotesField
deriving DecidableEq, Repr

/-- Dictionary assignment `d[k] = v` (insertion-ordered, replace in place). -/
def odInsert {α : Type} (d : List (ℕ × α)) (k : ℕ) (v : α) : List (ℕ × α) :=
  if (d.lookup k).isSome then d.map (fun p => if p.1 = k then (k, v) else p)
  else d ++ [(k, v)]

/-- Python `del d[k]`. -/
def dictDel {α : Type} (d : List (ℕ × α)) (k : ℕ) : List (ℕ × α) :=
  d.filter (fun p => p.1 ≠ k)

/-- Python `d[k].append(v)` on a `defaultdict(list)` (or the writer's
"append to the list if present, else start a new list" idiom). -/
def dictAppend {α : Type} (d : List (ℕ × List α)) (k : ℕ) (v : α) :
    List (ℕ × List α) :=
  if (d.lookup k).isSome then
    d.map (fun p => if p.1 = k then (p.1, p.2 ++ [v]) else p)
  else d ++ [(k, [v])]

/-- Insert a key-value pair into a key-sorted association list. -/
def insertByKey {α : Type} (p : ℕ × α) : List (ℕ × α) → List (ℕ × α)
  | [] => [p]
  | q :: rest => if p.1 ≤ q.1 then p :: q :: rest else q :: insertByKey p rest

/-- Python `sorted(d.items())`: the items of a dict sorted by key (keys are
distinct, so comparing the full tuples orders by key). -/
def sortByKey {α : Type} : List (ℕ × α) → List (ℕ × α)
  | [] => []
  | p :: rest => insertByKey p (sortByKey rest)

/-- Python `round(q)`: nearest integer, ties to even (banker's rounding). -/
def pyRound (q : ℚ) : ℤ :=
  let f := ⌊q⌋
  let r := q - f
  if r < 1/2 then f
  else if 1/2 < r then f + 1
  else if f % 2 = 0 then f else f + 1

/-- Python `round(q, 3)`: round to three decimal places, ties to even. -/
def pyRoundTo3 (q : ℚ) : ℚ := (pyRound (q * 1000) : ℚ) / 1000

/-- Python `MidiReader._round_to_sixteenth_note`: `round(0.125 * round(x / 0.125), 3)`. -/
def round_to_sixteenth_note (x : ℚ) : ℚ :=
  pyRoundTo3 ((1/8) * (pyRound (x / (1/8)) : ℚ))

/-- Python `MidiReader._round_down(num, divisor) = num - (num % divisor)`
(0 when the divisor is 0). -/
def round_down (num divisor : ℕ) : ℕ :=
  if divisor = 0 then 0 else num - num % divisor

/-- Python `int(pattern.resolution * quantization_ratio)`: the timing-quantization
step in MIDI ticks (`float` multiplication then `int` truncation; both factors
are non-negative so truncation is `⌊·⌋`). -/
def timingTicks (resolution : ℕ) (rq : ℚ) : ℕ := (⌊(resolution : ℚ) * rq⌋).toNat

/-- Python `range(0, stop, step)` for `step > 0` (`[]` for `step = 0`, where
Python would raise `ValueError`). -/
def pyRange (stop step : ℕ) : List ℕ :=
  if step = 0 then [] else (List.range ((stop + step - 1) / step)).map (· * step)

/-- Python `NOTE_NAMES` from `note_mapper.py`. -/
def NOTE_NAMES : List String := ["c", "c#", "d", "d#", "e", "f", "f#", "g", "g#", "a", "a#", "b"]

/-- The `NoteMapper._notes` table: MIDI note number `0 ≤ n ≤ 127` maps to
`NOTE_NAMES[n % 12] + str(n / 12)` (octaves `0..10`, index capped at 127). -/
def noteSymbol (n : ℕ) : Option String :=
  if n ≤ 127 then some ((NOTE_NAMES.getD (n % 12) "") ++ toString (n / 12)) else none

/-- The externally supplied note-mapping configuration consulted by
`NoteMapper`.  `midi_to_text` and `text_to_midi` are total (a missing entry
would raise `KeyError` in Python; the claims below never exercise that). -/
structure NoteMapper where
  midi_to_text : ℕ → String
  text_to_midi : String → ℤ
  percussion_map : List (ℕ × String)
  durations : String → Option (List ℚ)

/-- Python `min(xs, key=f)`: first element with minimal key (`xs ≠ []`;
Python raises `ValueError` on an empty sequence, the `[]` case is unused). -/
def minByKey (f : ℚ → ℚ) : List ℚ → ℚ
  | [] => 0
  | x :: xs => xs.foldl (fun best y => if f y < f best then y else best) x

/-- Python `NoteMapper.round_duration`: nearest allowed duration for the program if
a duration table exists, otherwise logs an error and returns `0`. -/
def NoteMapper.round_duration (m : NoteMapper) (program : String) (duration : ℚ) : ℚ :=
  match m.durations program with
  | some allowed_values => minByKey (fun x => |x - duration|) allowed_values
  | none => 0

/-- Python `NoteMapper.get_program_name`: name of a program number, `"percussion"`
for the negative drum sentinel. -/
def NoteMapper.get_program_name (m : NoteMapper) (program_number : ℤ) : String :=
  if 0 ≤ program_number then m.midi_to_text program_number.toNat else "percussion"

/-- Python `NoteMapper.get_note_name`: symbolic name for a note/program pair, or
`none` after logging a lookup failure. -/
def NoteMapper.get_note_name (m : NoteMapper) (note_number : ℕ) (program_number : ℤ) :
    Option String :=
  if 0 ≤ program_number ∧ (noteSymbol note_number).isSome then noteSymbol note_number
  else match m.percussion_map.lookup note_number with
    | some s => some s
    | none => none

/-- Python `NoteMapper.get_note_number`: first melodic note number whose symbol
matches, else first matching percussion entry, else `-1`. -/
def NoteMapper.get_note_number (m : NoteMapper) (note_name : String) : ℤ :=
  match (List.range 128).find? (fun i => noteSymbol i == some note_name) with
  | some i => (i : ℤ)
  | none =>
    match m.percussion_map.find? (fun p => p.2 == note_name) with
    | some p => (p.1 : ℤ)
    | none => -1

/-- Python `NoteMapper.get_program_number`: reverse program lookup, `-1` for
`"percussion"`. -/
def NoteMapper.get_program_number (m : NoteMapper) (program_name : String) : ℤ :=
  if program_name ≠ "percussion" then m.text_to_midi program_name else -1

/-- MIDI events delivered by the external `midi` package, with absolute ticks
(`pattern.make_ticks_abs()` has run).  `other` covers the event kinds the
reader ignores (pitch bends, control changes, end-of-track, ...). -/
inductive MidiEvent where
  | noteOn (tick : ℕ) (channel : ℕ) (pitch : ℕ) (velocity : ℕ)
  | noteOff (tick : ℕ) (channel : ℕ) (pitch : ℕ)
  | timeSignature (tick : ℕ) (numerator : ℕ) (denominator : ℕ)
  | setTempo (tick : ℕ) (bpm : ℚ)
  | programChange (tick : ℕ) (channel : ℕ) (value : ℤ)
  | other (tick : ℕ)
deriving DecidableEq, Repr

/-- Result of `midi.read_midifile`. -/
structure Pattern where
  resolution : ℕ
  tracks : List (List MidiEvent)
deriving DecidableEq, Repr

/-- The `MidiReader` scratch state that `_extract_text_sequence` fills in:
the two meter timelines, the extracted text sequence and the pending
(`on`) notes. -/
structure ReaderState where
  time_signature_by_timestamp : List (ℕ × TimeSignature)
  bpm_by_timestamp : List (ℕ × ℚ)
  text_sequence : List (ℕ × List NoteToken)
  on_notes : List (ℕ × ℕ)
deriving Repr

/-- Python `MidiReader._process_note_off`. -/
def process_note_off (m : NoteMapper) (resolution : ℕ) (st : ReaderState)
    (note : ℕ) (program_num : ℤ) (current_tick : ℕ) : ReaderState :=
  match st.on_notes.lookup note with
  | none => st
  | some start_tick =>
    let tickDuration : ℤ := (current_tick : ℤ) - (start_tick : ℤ)
    let st' :=
      if 0 < tickDuration then
        let duration : ℚ := (tickDuration : ℚ) / (resolution : ℚ)
        let instrument := m.get_program_name program_num
        let duration := m.round_duration instrument duration
        let duration := round_to_sixteenth_note duration
        match m.get_note_name note program_num with
        | some note_symbol =>
          { st with text_sequence :=
              dictAppend st.text_sequence start_tick ⟨instrument, note_symbol, duration⟩ }
        | none => st
      else st
    { st' with on_notes := dictDel st'.on_notes note }

/-- Python `MidiReader._process_midi_event`: one event, returning the updated state
and the updated current program of the track. -/
def process_midi_event (m : NoteMapper) (resolution : ℕ) (st : ReaderState)
    (event : MidiEvent) (program : Option ℤ) : ReaderState × Option ℤ :=
  match event with
  | .noteOn tick channel pitch velocity =>
    let prog : ℤ :=
      if channel = MIDI_DRUM_CHANNEL then DEFAULT_MIDI_PROGRAM_NUM
      else match program with | none => 1 | some p => p
    if 0 < velocity then
      ({ st with on_notes := odInsert st.on_notes pitch tick }, some prog)
    else
      (process_note_off m resolution st pitch prog tick, some prog)
  | .noteOff tick channel pitch =>
    let prog : ℤ :=
      if channel = MIDI_DRUM_CHANNEL then DEFAULT_MIDI_PROGRAM_NUM
      else match program with | none => 1 | some p => p
    (process_note_off m resolution st pitch prog tick, some prog)
  | .timeSignature tick n d =>
    ({ st with time_signature_by_timestamp :=
        odInsert st.time_signature_by_timestamp tick ⟨n, d⟩ }, program)
  | .setTempo tick bpm =>
    ({ st with bpm_by_timestamp := odInsert st.bpm_by_timestamp tick bpm }, program)
  | .programChange _ _ value => (st, some value)
  | .other _ => (st, program)

/-- Python `MidiReader._extract_text_sequence`: process each track in sequence with
the current program reset to `None` per track, then seed the MIDI defaults
into any timeline that stayed empty. -/
def extract_text_sequence (m : NoteMapper) (resolution : ℕ)
    (tracks : List (List MidiEvent)) : ReaderState :=
  let st0 : ReaderState := ⟨[], [], [], []⟩
  let st := tracks.foldl
    (fun st track =>
      (track.foldl (fun (p : ReaderState × Option ℤ) event =>
          process_midi_event m resolution p.1 event p.2) (st, none)).1)
    st0
  let st :=
    if st.time_signature_by_timestamp = [] then
      { st with time_signature_by_timestamp := [(0, DEFAULT_MIDI_TIME_SIGNATURE)] }
    else st
  if st.bpm_by_timestamp = [] then
    { st with bpm_by_timestamp := [(0, DEFAULT_MIDI_BPM)] }
  else st

/-- Python `MidiReader._create_timestamp_sequence`: walk the extracted text sequence
in key order; every nonempty token list is rounded down to the grid and
appended to (or merged into) the entry at that grid tick. -/
def create_timestamp_sequence (text_sequence : List (ℕ × List NoteToken))
    (timing_quantization_ticks : ℕ) : List (ℕ × List NoteToken) :=
  (sortByKey text_sequence).foldl
    (fun seq p =>
      if 0 < p.2.length then
        let timestamp := round_down p.1 timing_quantization_ticks
        match seq.lookup timestamp with
        | some existing => odInsert seq timestamp (existing ++ p.2)
        | none => seq ++ [(timestamp, p.2)]
      else seq)
    []

/-- Python `max(self._text_sequence.items())`: the dict's keys are distinct, so the
lexicographically greatest item is the one with the greatest key (`none` for
an empty dict, where Python raises `ValueError`). -/
def maxKey {α : Type} (d : List (ℕ × α)) : Option ℕ :=
  match d.map Prod.fst with
  | [] => none
  | k :: ks => some (ks.foldl Nat.max k)

/-- The rest-filling loop of `convert_to_dataframe`: for every grid tick in
`range(0, max_timestamp + step, step)` not already present, store `"rest"`. -/
def fillRests (seq : List (ℕ × NotesField)) (max_timestamp step : ℕ) :
    List (ℕ × NotesField) :=
  (pyRange (max_timestamp + step) step).foldl
    (fun seq i => if (seq.lookup i).isSome then seq else seq ++ [(i, NotesField.rest)])
    seq

/-- Python `MidiReader._get_value_at_timestamp` inner loop: keep the value of the
greatest key `≤ timestamp` seen so far, returning the accumulator as soon as
a key exceeds the query. -/
def get_value_at_go {α : Type} (timestamp : ℕ) (acc : α) : List (ℕ × α) → α
  | [] => acc
  | (k, v) :: rest => if k ≤ timestamp then get_value_at_go timestamp v rest else acc

/-- Python `MidiReader._get_value_at_timestamp` (`none` on an empty dict, where
Python would raise `IndexError` on `keys[0]`). -/
def get_value_at_timestamp {α : Type} (values : List (ℕ × α)) (timestamp : ℕ) :
    Option α :=
  match values with
  | [] => none
  | (_, v0) :: _ => some (get_value_at_go timestamp v0 values)

/-- One output row (all extraction flags at their `True` defaults). -/
structure Row where
  timestamp : ℕ
  bpm : ℚ
  time_signature : TimeSignature
  measure : ℕ
  beat : ℚ
  notes : NotesField
deriving DecidableEq, Repr

/-- Loop state of the measure/beat bookkeeping in `convert_to_dataframe`:
`measure = 1`, `current_beat = 1`, `time_sig = None` initially. -/
structure MBState where
  measure : ℕ
  current_beat : ℕ
  time_sig : Option TimeSignature
deriving DecidableEq, Repr

/-- Body of the row loop of `convert_to_dataframe` at `(index, (timestamp,
notes))`: meter lookups, the beat-units modifier, the beat/measure update and
the emitted row.  The timelines are nonempty after seeding, so the `.getD`
defaults are never used. -/
def rowStep (rq : ℚ) (sig_tl : List (ℕ × TimeSignature)) (bpm_tl : List (ℕ × ℚ))
    (st : MBState) (index : ℕ) (p : ℕ × NotesField) : Row × MBState :=
  let timestamp := p.1
  let bpm := (get_value_at_timestamp bpm_tl timestamp).getD DEFAULT_MIDI_BPM
  let time_sig :=
    (get_value_at_timestamp sig_tl timestamp).getD DEFAULT_MIDI_TIME_SIGNATURE
  let modifier : ℚ :=
    if rq = 1/8 then 32 / (time_sig.denominator : ℚ)
    else if rq = 1/4 then 16 / (time_sig.denominator : ℚ)
    else if rq = 1/2 then 8 / (time_sig.denominator : ℚ)
    else if rq = 1 then 4 / (time_sig.denominator : ℚ)
    else 1
  let tbu : ℚ := (index : ℚ) / modifier
  let tbu : ℚ := if rq = 1 then tbu * 2 else tbu
  let cb : ℕ := if 0 < tbu ∧ tbu.den = 1 then st.current_beat + 1 else st.current_beat
  let incMeasure : Bool :=
    decide (time_sig.numerator < cb) ||
      (match st.time_sig with
       | none => false
       | some prev => decide (prev ≠ time_sig))
  let measure : ℕ := if incMeasure then st.measure + 1 else st.measure
  let cb : ℕ := if incMeasure then 1 else cb
  let beat : ℚ := (cb : ℚ) + Int.fract tbu
  (⟨timestamp, bpm, time_sig, measure, beat, p.2⟩, ⟨measure, cb, some time_sig⟩)

/-- The row loop of `convert_to_dataframe` over the enumerated, key-sorted
timestamp sequence. -/
def buildRowsAux (rq : ℚ) (sig_tl : List (ℕ × TimeSignature))
    (bpm_tl : List (ℕ × ℚ)) : MBState → ℕ → List (ℕ × NotesField) → List Row
  | _, _, [] => []
  | st, index, p :: rest =>
    let r := rowStep rq sig_tl bpm_tl st index p
    r.1 :: buildRowsAux rq sig_tl bpm_tl r.2 (index + 1) rest

/-- The row loop started from `measure = 1`, `current_beat = 1`,
`time_sig = None`, `index = 0`. -/
def buildRows (rq : ℚ) (sig_tl : List (ℕ × TimeSignature))
    (bpm_tl : List (ℕ × ℚ)) (steps : List (ℕ × NotesField)) : List Row :=
  buildRowsAux rq sig_tl bpm_tl ⟨1, 1, none⟩ 0 steps

/-- How `midi.read_midifile(path)` can fail: `TypeError`/`RuntimeWarning`
(caught by the reader) or any other exception such as `IOError` on a missing
file (not caught). -/
inductive ReadFailure where
  | typeErrorOrRuntimeWarning : ReadFailure
  | ioError : ReadFailure
deriving DecidableEq, Repr

/-- Exceptions that escape `convert_to_dataframe` to the caller. -/
inductive PyException where
  | uncaughtReadError : PyException
  | valueErrorMaxOfEmpty : PyException
deriving DecidableEq, Repr

/-- The dense row list built on the success path of `convert_to_dataframe`
for a file whose greatest recorded tick is `M`. -/
def mainRows (m : NoteMapper) (rq : ℚ) (pat : Pattern) (M : ℕ) : List Row :=
  buildRows rq
    (extract_text_sequence m pat.resolution pat.tracks).time_signature_by_timestamp
    (extract_text_sequence m pat.resolution pat.tracks).bpm_by_timestamp
    (sortByKey
      (fillRests
        ((create_timestamp_sequence
            (extract_text_sequence m pat.resolution pat.tracks).text_sequence
            (timingTicks pat.resolution rq)).map
          (fun p => (p.1, NotesField.tokens p.2)))
        M (timingTicks pat.resolution rq)))

/-- Python `MidiReader.convert_to_dataframe` after a successful
`midi.read_midifile`: find the greatest recorded tick (`ValueError` on an
empty text sequence), bail out with an empty frame above the 10⁷ ceiling,
otherwise quantize, fill rests and build the rows. -/
def convert_ok (m : NoteMapper) (rq : ℚ) (pat : Pattern) :
    Except PyException (List Row) :=
  match maxKey (extract_text_sequence m pat.resolution pat.tracks).text_sequence with
  | none => .error .valueErrorMaxOfEmpty
  | some M =>
    if 10000000 < M then .ok []
    else .ok (mainRows m rq pat M)

/-- Python `MidiReader.convert_to_dataframe`, with the result of the external
`midi.read_midifile(path)` call as input. -/
def convert_to_dataframe (m : NoteMapper) (rq : ℚ)
    (parsed : Except ReadFailure Pattern) : Except PyException (List Row) :=
  match parsed with
  | .error .typeErrorOrRuntimeWarning => .ok []
  | .error .ioError => .error .uncaughtReadError
  | .ok pat => convert_ok m rq pat

/-- MIDI events appended to an output track by `MidiWriter` (`tick` is the
delta tick within the track). -/
inductive TrackEvent where
  | setTempo (tick : ℕ) (bpm : ℤ)
  | programChange (tick : ℕ) (channel : Option ℕ) (data : Option ℤ)
  | noteOn (tick : ℕ) (channel : ℕ) (pitch : ℤ) (velocity : ℕ)
  | noteOff (tick : ℕ) (channel : ℕ) (pitch : ℤ)
  | endOfTrack (tick : ℕ)
deriving DecidableEq, Repr

/-- A scheduled (absolute-timestamp) note event before delta conversion. -/
structure SchedEvent where
  isOn : Bool
  pitch : ℤ
  channel : ℕ
deriving DecidableEq, Repr

/-- Python `MidiWriter` scratch state: program names, tracks and previous timestamps
by track number, the creation order of tracks in the output pattern, and the
`midi_events_by_timestamp` schedule. -/
structure WriterState where
  prog_names_by_track_num : List (ℕ × String)
  midi_tracks_by_track_num : List (ℕ × List TrackEvent)
  prev_timestamps_by_track_num : List (ℕ × ℕ)
  pattern_order : List ℕ
  events_by_timestamp : List (ℕ × List SchedEvent)
deriving Repr

/-- Python `DEFAULT_MIDI_RESOLUTION = 120` (the writer always emits at this
resolution: `pattern.resolution` is set from `self._resolution`, which holds
its default at that point). -/
def DEFAULT_MIDI_RESOLUTION : ℕ := 120

/-- The `TypeError` raised when `convert_to_midi` unpacks the bare `None`
returned by `_get_midi_track` into `(track_num, midi_track)`. -/
inductive WriterError where
  | typeErrorUnpackNone : WriterError
deriving DecidableEq, Repr

/-- Python `MidiWriter._get_next_unused_track`: lowest track number in `0..15` not
already used, else `-1`. -/
def get_next_unused_track (tracks : List (ℕ × String)) : ℤ :=
  match (List.range 16).find? (fun i => !(tracks.map Prod.fst).contains i) with
  | some i => (i : ℤ)
  | none => -1

/-- Python `MidiWriter._get_midi_track`: `None` when the program name has no track,
else the first `(track number, track)` pair carrying that name. -/
def writer_get_midi_track (st : WriterState) (program_name : String) :
    Option (ℕ × List TrackEvent) :=
  match st.prog_names_by_track_num.find? (fun p => p.2 == program_name) with
  | none => none
  | some p => some (p.1, (st.midi_tracks_by_track_num.lookup p.1).getD [])

/-- Python `MidiWriter._add_track`: create a track (tempo + drum-channel program
change for percussion, else a plain program change), append it to the
pattern, and register it under the track index. -/
def add_track (m : NoteMapper) (bpm : ℚ) (st : WriterState) (track_index : ℕ)
    (program_name : String) : WriterState :=
  let track : List TrackEvent :=
    if program_name = "percussion" then
      [.setTempo 0 ⌊bpm⌋, .programChange 0 (some MIDI_DRUM_CHANNEL) none]
    else
      [.programChange 0 none (some (m.get_program_number program_name))]
  { st with
    midi_tracks_by_track_num := odInsert st.midi_tracks_by_track_num track_index track
    prev_timestamps_by_track_num := odInsert st.prev_timestamps_by_track_num track_index 0
    pattern_order := st.pattern_order ++ [track_index] }

/-- Python `int(index * (resolution / 4))`: the absolute tick of a dataframe row
(one row per sixteenth note). -/
def writerRowTick (index : ℕ) : ℕ :=
  (⌊(index : ℚ) * ((DEFAULT_MIDI_RESOLUTION : ℚ) / 4)⌋).toNat

/-- Processing of one non-rest note word inside `convert_to_midi`'s row loop:
allocate a track for a new instrument if a channel is free, look the track up
(unpacking `None` raises `TypeError`), and schedule the note-on/note-off
pair. -/
def writeNoteWord (m : NoteMapper) (bpm : ℚ) (st : WriterState)
    (current_timestamp : ℕ) (tok : NoteToken) : Except WriterError WriterState :=
  let st :=
    if tok.instrument ∈ st.prog_names_by_track_num.map Prod.snd then st
    else
      let program_index := get_next_unused_track st.prog_names_by_track_num
      if 0 ≤ program_index then
        add_track m bpm
          { st with prog_names_by_track_num :=
              odInsert st.prog_names_by_track_num program_index.toNat tok.instrument }
          program_index.toNat tok.instrument
      else st
  match writer_get_midi_track st tok.instrument with
  | none => .error .typeErrorUnpackNone
  | some (track_num, _) =>
    let key := m.get_note_number tok.symbol
    let st := { st with events_by_timestamp :=
                  dictAppend st.events_by_timestamp current_timestamp ⟨true, key, track_num⟩ }
    let off_timestamp :=
      current_timestamp + (⌊tok.duration * (DEFAULT_MIDI_RESOLUTION : ℚ)⌋).toNat
    .ok { st with events_by_timestamp :=
            dictAppend st.events_by_timestamp off_timestamp ⟨false, key, track_num⟩ }

/-- The second phase of `convert_to_midi`: walk the schedule in ascending
timestamp order and append each event to its track with
`delta = timestamp - previous timestamp of that track`.  (`prev_timestamps`
has an entry for every scheduled channel, so the `.getD` defaults are never
used; Python would raise `KeyError`.) -/
def deltaPhase (st : WriterState) : WriterState :=
  (sortByKey st.events_by_timestamp).foldl
    (fun st p =>
      p.2.foldl
        (fun st ev =>
          let prev := (st.prev_timestamps_by_track_num.lookup ev.channel).getD 0
          let delta := p.1 - prev
          let track := (st.midi_tracks_by_track_num.lookup ev.channel).getD []
          let track := track ++
            [if ev.isOn then TrackEvent.noteOn delta ev.channel ev.pitch 127
             else TrackEvent.noteOff delta ev.channel ev.pitch]
          { st with
            midi_tracks_by_track_num := odInsert st.midi_tracks_by_track_num ev.channel track
            prev_timestamps_by_track_num :=
              odInsert st.prev_timestamps_by_track_num ev.channel p.1 })
        st)
    st

/-- The writer's input dataframe: the `notes` column and the optional `bpm`
column. -/
structure WriterFrame where
  notes : List NotesField
  bpm : Option (List ℚ)
deriving Repr

/-- Python `MidiWriter.convert_to_midi`, producing the tracks of the output pattern
in creation order (the byte-level serialization is the external library's
work).  Raises (`.error`) exactly where the Python raises. -/
def convert_to_midi (m : NoteMapper) (frame : WriterFrame) :
    Except WriterError (List (List TrackEvent)) :=
  let bpm : ℚ := match frame.bpm with
    | some l => l.sum / (l.length : ℚ)
    | none => (DEFAULT_MIDI_BPM : ℚ)
  let st0 : WriterState := ⟨[], [], [], [], []⟩
  let st1 := add_track m bpm st0 MIDI_DRUM_CHANNEL "percussion"
  let st1 := { st1 with prog_names_by_track_num :=
                 odInsert st1.prog_names_by_track_num MIDI_DRUM_CHANNEL "percussion" }
  let folded : Except WriterError WriterState :=
    frame.notes.enum.foldlM
      (fun st (row : ℕ × NotesField) =>
        match row.2 with
        | .rest => .ok st
        | .tokens toks =>
          toks.foldlM (fun st tok => writeNoteWord m bpm st (writerRowTick row.1) tok) st)
      st1
  match folded with
  | .error e => .error e
  | .ok st =>
    let st := deltaPhase st
    let withEot :=
      st.midi_tracks_by_track_num.map
        (fun (q : ℕ × List TrackEvent) => (q.1, q.2 ++ [TrackEvent.endOfTrack 1]))
    let st := { st with midi_tracks_by_track_num := withEot }
    .ok (st.pattern_order.map (fun n => (st.midi_tracks_by_track_num.lookup n).getD []))

/-! ### Concrete instances used by witnesses and counterexamples -/

/-- A mapper whose melodic programs all map to `"inst"` and that supplies no
duration tables (so `round_duration` takes its `else` branch). -/
def mapInst : NoteMapper :=
  ⟨fun _ => "inst", fun _ => 5, [(36, "kick"), (60, "bongo")], fun _ => none⟩

/-- A mapper with a duration table `[1/32]` for program `"tabled"` and no
table for any other program. -/
def mapTabled : NoteMapper :=
  ⟨fun _ => "inst", fun _ => 5, [], fun s => if s = "tabled" then some [1/32] else none⟩

/-- A mapper whose melodic programs all map to `"piano"` and whose percussion
table contains entries for pitches 36 and 60. -/
def mapPiano : NoteMapper :=
  ⟨fun _ => "piano", fun _ => 0, [(36, "kick"), (60, "bongo")], fun _ => some [1/4]⟩

/-- C3 counterexample input: a one-tick note at tick 0 (resolution 120). -/
def patC3 : Pattern := ⟨120, [[.noteOn 0 0 60 100, .noteOff 1 0 60]]⟩

/-- The token the C3 counterexample run emits. -/
def tokC3 : NoteToken := ⟨"inst", "c5", 0⟩

/-- The single row the C3 counterexample run produces. -/
def rowC3 : Row := ⟨0, 120, ⟨4, 4⟩, 1, 1, .tokens [tokC3]⟩

/-- C6 failing input: tempo events on two tracks with interleaved ticks. -/
def tracksC6 : List (List MidiEvent) :=
  [[.setTempo 0 100, .setTempo 1000 110], [.setTempo 500 90]]

/-- C7 witness input: a note starting beyond the 10⁷-tick ceiling. -/
def patC7big : Pattern := ⟨120, [[.noteOn 20000000 0 60 100, .noteOff 20000001 0 60]]⟩

/-- C8 failing input: one row naming 16 distinct non-percussion
instruments. -/
def toksC8 : List NoteToken := (List.range 16).map (fun k => ⟨"i" ++ toString k, "c5", 1/4⟩)

/-- The C8 dataframe (no `bpm` column). -/
def dfC8 : WriterFrame := ⟨[.tokens toksC8], none⟩

/-- C10 failing input: a drum-channel note followed by a channel-0 note on
the same track, with no program-change event anywhere. -/
def tracksC10 : List (List MidiEvent) :=
  [[.noteOn 0 9 36 100, .noteOff 10 9 36, .noteOn 20 0 60 100, .noteOff 40 0 60]]

/-- C1 witness input: resolution 4 (so the sixteenth-note grid step is one
tick) with notes recorded at ticks 0 and 16, giving 17 grid rows under the
default seeded 4/4 signature. -/
def patC1 : Pattern :=
  ⟨4, [[.noteOn 0 0 60 100, .noteOff 8 0 60, .noteOn 16 0 62 100, .noteOff 18 0 62]]⟩

/-- The rows the C1 witness run produces. -/
def rowsC1 : List Row := (convert_to_dataframe mapInst (1/4) (.ok patC1)).toOption.getD []

/-- The measure/beat paired column of the first seventeen grid rows under a
constant 4/4 signature and a sixteenth-note grid. -/
def mbC1Expected : List (ℕ × ℚ) :=
  [(1, 1), (1, 5/4), (1, 3/2), (1, 7/4), (1, 2), (1, 9/4), (1, 5/2), (1, 11/4),
   (1, 3), (1, 13/4), (1, 7/2), (1, 15/4), (1, 4), (1, 17/4), (1, 9/2), (1, 19/4),
   (2, 1)]

/-- C2 witness input: resolution 8 (grid step 2) with notes at ticks 0 and 5,
the latter rounding down to grid tick 4 and forcing rest fills at 2 and 6. -/
def patC2 : Pattern := ⟨8, [[.noteOn 0 0 60 100, .noteOff 1 0 60, .noteOn 5 0 62 100, .noteOff 6 0 62]]⟩

/-- The rows the C2 witness run produces. -/
def rowsC2 : List Row := (convert_to_dataframe mapInst (1/4) (.ok patC2)).toOption.getD []

/-- A reader state with one pending note (pitch 60 turned on at tick 10),
used to witness the discard of non-positive durations. -/
def stPending : ReaderState := ⟨[], [], [], [(60, 10)]⟩

/-- The empty reader state. -/
def stEmpty : ReaderState := ⟨[], [], [], []⟩

/-- The inner loop of `_extract_text_sequence` on one track: fold
`_process_midi_event` over the track's events, threading the reader state and
the track's current program. -/
def processTrack (m : NoteMapper) (resolution : ℕ) (start : ReaderState × Option ℤ)
    (events : List MidiEvent) : ReaderState × Option ℤ :=
  events.foldl (fun p event => process_midi_event m resolution p.1 event p.2) start

/-- The measure/beat body of the row loop specialized to a constant 4/4
signature and the sixteenth-note grid (`rq = 1/4`): the pure function of the
loop state and row index that `rowStep` computes once the signature lookup is
constant.  Mirrors `rowStep` literally with `time_sig = (4, 4)` and the
`rq`-dispatch resolved. -/
def mbStep (st : MBState) (index : ℕ) : (ℕ × ℚ) × MBState :=
  let time_sig : TimeSignature := ⟨4, 4⟩
  let modifier : ℚ := 16 / (time_sig.denominator : ℚ)
  let tbu : ℚ := (index : ℚ) / modifier
  let cb : ℕ := if 0 < tbu ∧ tbu.den = 1 then st.current_beat + 1 else st.current_beat
  let incMeasure : Bool :=
    decide (time_sig.numerator < cb) ||
      (match st.time_sig with
       | none => false
       | some prev => decide (prev ≠ time_sig))
  let measure : ℕ := if incMeasure then st.measure + 1 else st.measure
  let cb2 : ℕ := if incMeasure then 1 else cb
  ((measure, (cb2 : ℚ) + Int.fract tbu), ⟨measure, cb2, some time_sig⟩)

/-- The (measure, beat) column of `n` consecutive rows under a constant 4/4
signature and sixteenth-note grid, starting from loop state `st` at row
index `i`. -/
def mbSeq : MBState → ℕ → ℕ → List (ℕ × ℚ)
  | _, _, 0 => []
  | st, i, Nat.succ n => (mbStep st i).1 :: mbSeq (mbStep st i).2 (i + 1) n

/-! ### Theorems -/

/-- C3, counterexample.  The claim says every emitted token has a
strictly positive duration field.  Extracting a one-tick note (raw tick
duration `1 > 0`, so the token *is* emitted) through a mapper with no
duration table for the instrument yields `round_duration = 0`, and the run
emits a token whose duration field is `0`. -/
theorem C3_counterexample :
    convert_to_dataframe mapInst (1/4) (.ok patC3) = .ok [rowC3]
      ∧ rowC3.notes = .tokens [tokC3] ∧ ¬ 0 < tokC3.duration := by
  refine ⟨by with_unfolding_all rfl, rfl, by norm_num [tokC3]⟩

/-- C4, counterexample.  The claim says duration quantization applies
exactly one of two modes.  In table mode the code *additionally* rounds the
chosen set element to a multiple of 1/8 (a table value `1/32` quantizes to
`0`, which is not an element of the set), and in no-table mode the code
returns `0` (not the raw duration rounded to the nearest 1/8: for a raw
duration of `1/4` that rounding would give `1/4`). -/
theorem C4_counterexample :
    mapTabled.durations "tabled" = some [1/32]
      ∧ round_to_sixteenth_note (mapTabled.round_duration "tabled" (1/32)) ∉ [(1/32 : ℚ)]
      ∧ mapTabled.durations "untabled" = none
      ∧ round_to_sixteenth_note (mapTabled.round_duration "untabled" (1/4))
          ≠ round_to_sixteenth_note (1/4) := by
  refine ⟨by with_unfolding_all rfl, by with_unfolding_all decide,
    by with_unfolding_all rfl, by with_unfolding_all decide⟩

/-- C6 (code bug).  Meter events on two different tracks leave the tempo
timeline in insertion order `[(0, 100), (1000, 110), (500, 90)]`, which is
not ascending by key, and the early-exiting lookup at tick 600 then returns
the tempo recorded at tick 0 instead of the latest record at-or-before 600
(the one at tick 500, value 90). -/
theorem C6_theorem :
    (extract_text_sequence mapInst 120 tracksC6).bpm_by_timestamp
        = [(0, 100), (1000, 110), (500, 90)]
      ∧ ¬ ((((extract_text_sequence mapInst 120 tracksC6).bpm_by_timestamp).map
            Prod.fst).Pairwise (· < ·))
      ∧ get_value_at_timestamp
          (extract_text_sequence mapInst 120 tracksC6).bpm_by_timestamp 600 = some 100
      ∧ ((extract_text_sequence mapInst 120 tracksC6).bpm_by_timestamp).lookup 500
          = some 90
      ∧ (500 : ℕ) ≤ 600 ∧ (90 : ℚ) ≠ 100 := by
  refine ⟨by with_unfolding_all rfl, ?_, by with_unfolding_all rfl,
    by with_unfolding_all rfl, by norm_num, by norm_num⟩
  with_unfolding_all decide

/-- C7, counterexample.  The claim says `convert_to_dataframe` never
propagates an exception for missing or note-less inputs.  A missing file
(`IOError` from `midi.read_midifile`, not among the caught
`TypeError`/`RuntimeWarning`) propagates, and a readable file whose event
stream yields no notes makes `max(self._text_sequence.items())` raise
`ValueError` on an empty dict. -/
theorem C7_counterexample :
    convert_to_dataframe mapInst (1/4) (.error .ioError) = .error .uncaughtReadError
      ∧ convert_to_dataframe mapInst (1/4) (.ok ⟨120, [[.other 5]]⟩)
          = .error .valueErrorMaxOfEmpty :=
  ⟨rfl, rfl⟩

/-- C8 (code bug).  With the percussion channel pre-allocated, the 16th
distinct melodic instrument finds every channel `0..15` used;
`_get_next_unused_track` returns `-1`, no track is created, and
`_get_midi_track` returns the bare `None` that `convert_to_midi` immediately
unpacks into `(track_num, midi_track)` — a `TypeError`, not the silent drop
the claim describes.  With only 15 distinct melodic instruments the same
conversion succeeds. -/
theorem C8_theorem :
    convert_to_midi mapInst dfC8 = .error .typeErrorUnpackNone
      ∧ (convert_to_midi mapInst ⟨[.tokens (toksC8.take 15)], none⟩).isOk = true :=
  ⟨rfl, rfl⟩

/-- C10, counterexample.  On a track whose first events are drum-channel
notes, the track program becomes the percussion sentinel `-1`; a later
channel-0 note that completes before any program-change event then no longer
sees an *unset* program, so its token's instrument is `"percussion"`, not the
mapped name of program 1 (`"piano"`). -/
theorem C10_counterexample :
    (extract_text_sequence mapPiano 120 tracksC10).text_sequence
        = [(0, [⟨"percussion", "kick", 1/4⟩]), (20, [⟨"percussion", "bongo", 1/4⟩])]
      ∧ mapPiano.midi_to_text 1 = "piano"
      ∧ "percussion" ≠ "piano" := by
  refine ⟨by with_unfolding_all rfl, rfl, by decide⟩

theorem lookup_map_set {α : Type} (d : List (ℕ × α)) (k : ℕ) (v : α) :
    (d.map (fun p => if p.1 = k then (k, v) else p)).lookup k
      = ((d.lookup k).map (fun _ => v)) := by
  induction d with
  | nil => rfl
  | cons a tl ih =>
    obtain ⟨a1, a2⟩ := a
    simp only [List.map_cons]
    by_cases h : a1 = k
    · subst h
      rw [if_pos rfl]
      simp [List.lookup]
    · rw [if_neg h]
      simp [List.lookup, show (k == a1) = false from beq_false_of_ne (Ne.symm h), ih]

theorem lookup_append_single {α : Type} (d : List (ℕ × α)) (k : ℕ) (v : α)
    (h : d.lookup k = none) : (d ++ [(k, v)]).lookup k = some v := by
  induction d with
  | nil => simp [List.lookup]
  | cons a tl ih =>
    obtain ⟨a1, a2⟩ := a
    by_cases hk : k = a1
    · simp [List.lookup, hk] at h
    · simp only [List.cons_append, List.lookup,
        show (k == a1) = false from beq_false_of_ne hk] at h ⊢
      exact ih h

theorem lookup_odInsert_self {α : Type} (d : List (ℕ × α)) (k : ℕ) (v : α) :
    (odInsert d k v).lookup k = some v := by
  unfold odInsert
  by_cases hs : (d.lookup k).isSome
  · rw [if_pos hs, lookup_map_set]
    obtain ⟨w, hw⟩ := Option.isSome_iff_exists.mp hs
    rw [hw]
    rfl
  · rw [if_neg hs]
    exact lookup_append_single d k v (Option.not_isSome_iff_eq_none.mp hs)

theorem lookup_dictDel_self {α : Type} (d : List (ℕ × α)) (k : ℕ) :
    (dictDel d k).lookup k = none := by
  unfold dictDel
  induction d with
  | nil => rfl
  | cons a tl ih =>
    obtain ⟨a1, a2⟩ := a
    by_cases h : a1 = k
    · subst h
      simpa [List.filter_cons] using ih
    · simp only [List.filter_cons]
      rw [if_pos (by simpa using h)]
      simpa [List.lookup, show (k == a1) = false from beq_false_of_ne (Ne.symm h)] using ih

theorem minByKey_aux (f : ℚ → ℚ) :
    ∀ (xs : List ℚ) (best : ℚ),
      (xs.foldl (fun b y => if f y < f b then y else b) best = best
        ∨ xs.foldl (fun b y => if f y < f b then y else b) best ∈ xs)
      ∧ f (xs.foldl (fun b y => if f y < f b then y else b) best) ≤ f best
      ∧ ∀ y ∈ xs, f (xs.foldl (fun b y => if f y < f b then y else b) best) ≤ f y := by
  intro xs
  induction xs with
  | nil => intro best; exact ⟨Or.inl rfl, le_refl _, by simp⟩
  | cons x tl ih =>
    intro best
    have step : (if f x < f best then x else best) = x ∨
        (if f x < f best then x else best) = best := by
      split <;> simp
    have hle : f (if f x < f best then x else best) ≤ f best := by
      split
      · exact le_of_lt (by assumption)
      · exact le_refl _
    have hlex : f (if f x < f best then x else best) ≤ f x := by
      split
      · exact le_refl _
      · exact le_of_not_lt (by assumption)
    obtain ⟨ih1, ih2, ih3⟩ := ih (if f x < f best then x else best)
    refine ⟨?_, le_trans ih2 hle, ?_⟩
    · rcases ih1 with h | h
      · rw [List.foldl_cons, h]
        rcases step with h2 | h2
        · exact Or.inr (by rw [h2]; exact List.mem_cons_self _ _)
        · exact Or.inl h2
      · exact Or.inr (List.mem_cons_of_mem _ (by rwa [List.foldl_cons]))
    · intro y hy
      rcases List.mem_cons.mp hy with h | h
      · subst h
        rw [List.foldl_cons]
        exact le_trans ih2 hlex
      · rw [List.foldl_cons]
        exact ih3 y h

theorem minByKey_mem (f : ℚ → ℚ) (x : ℚ) (xs : List ℚ) :
    minByKey f (x :: xs) ∈ x :: xs := by
  have heq : minByKey f (x :: xs)
      = xs.foldl (fun b y => if f y < f b then y else b) x := rfl
  obtain ⟨h1, -, -⟩ := minByKey_aux f xs x
  rw [heq]
  rcases h1 with h | h
  · rw [h]; exact List.mem_cons_self _ _
  · exact List.mem_cons_of_mem _ h

theorem minByKey_min (f : ℚ → ℚ) (x : ℚ) (xs : List ℚ) :
    ∀ y ∈ x :: xs, f (minByKey f (x :: xs)) ≤ f y := by
  intro y hy
  have heq : minByKey f (x :: xs)
      = xs.foldl (fun b y => if f y < f b then y else b) x := rfl
  obtain ⟨-, h2, h3⟩ := minByKey_aux f xs x
  rw [heq]
  rcases List.mem_cons.mp hy with h | h
  · subst h; exact h2
  · exact h3 y h

theorem pyRound_intCast (n : ℤ) : pyRound (n : ℚ) = n := by
  unfold pyRound
  norm_num

theorem rts_eq (x : ℚ) :
    round_to_sixteenth_note x = (pyRound (8 * x) : ℚ) / 8 := by
  unfold round_to_sixteenth_note pyRoundTo3
  have h1 : x / (1/8) = 8 * x := by ring
  rw [h1]
  have h2 : (1/8 : ℚ) * (pyRound (8 * x) : ℚ) * 1000
      = ((125 * pyRound (8 * x) : ℤ) : ℚ) := by push_cast; ring
  rw [h2, pyRound_intCast]
  push_cast
  ring

theorem abs_pyRound_sub (q : ℚ) : |(pyRound q : ℚ) - q| ≤ 1/2 := by
  have hf := Int.floor_le q
  have hc := Int.lt_floor_add_one q
  unfold pyRound
  simp only []
  split_ifs with h1 h2 h3 <;> rw [abs_le] <;> constructor <;> push_cast <;> linarith

theorem rts_close (x : ℚ) : |round_to_sixteenth_note x - x| ≤ 1/16 := by
  rw [rts_eq]
  have h := abs_pyRound_sub (8 * x)
  have heq : (pyRound (8 * x) : ℚ) / 8 - x = ((pyRound (8 * x) : ℚ) - 8 * x) / 8 := by ring
  rw [heq, abs_div]
  rw [show |(8 : ℚ)| = 8 by norm_num]
  linarith

/-- C3 (amended part).  A note-off whose raw tick duration is `≤ 0` emits
nothing: the reader state is unchanged except that the pending entry for the
pitch is deleted.  (The original claim's second half — that every *emitted*
token has a strictly positive duration field — fails; see the
counterexample.) -/
theorem C3_theorem (m : NoteMapper) (resolution : ℕ) (st : ReaderState)
    (note : ℕ) (program_num : ℤ) (current_tick start_tick : ℕ)
    (hpend : st.on_notes.lookup note = some start_tick)
    (hdur : (current_tick : ℤ) - (start_tick : ℤ) ≤ 0) :
    process_note_off m resolution st note program_num current_tick
      = { st with on_notes := dictDel st.on_notes note } := by
  unfold process_note_off
  rw [hpend]
  simp [not_lt.mpr hdur]

theorem C3_witness :
    process_note_off mapInst 120 stPending 60 1 10
      = { stPending with on_notes := dictDel stPending.on_notes 60 } :=
  C3_theorem mapInst 120 stPending 60 1 10 10 (by with_unfolding_all rfl) (by norm_num)

/-- C4 (amended).  Duration quantization composes two steps.  With a
(nonempty) per-instrument table, `round_duration` returns an element of the
table at minimal absolute distance from the raw duration, and the caller then
*additionally* rounds that element to a multiple of `1/8` within `1/16` of it
(`_round_to_sixteenth_note`).  With no table, `round_duration` returns `0`
and the final value is `0` regardless of the raw duration. -/
theorem C4_theorem (m : NoteMapper) (program : String) (d : ℚ) :
    (∀ l, m.durations program = some l → l ≠ [] →
        m.round_duration program d ∈ l
        ∧ (∀ y ∈ l, |m.round_duration program d - d| ≤ |y - d|)
        ∧ (∃ k : ℤ, round_to_sixteenth_note (m.round_duration program d) = (k : ℚ) / 8)
        ∧ |round_to_sixteenth_note (m.round_duration program d)
            - m.round_duration program d| ≤ 1/16)
    ∧ (m.durations program = none →
        round_to_sixteenth_note (m.round_duration program d) = 0) := by
  constructor
  · intro l hl hne
    have hrd : m.round_duration program d = minByKey (fun x => |x - d|) l := by
      unfold NoteMapper.round_duration
      rw [hl]
    cases l with
    | nil => exact absurd rfl hne
    | cons x xs =>
      rw [hrd]
      exact ⟨minByKey_mem _ x xs,
        fun y hy => minByKey_min (fun x => |x - d|) x xs y hy,
        ⟨pyRound (8 * minByKey (fun x => |x - d|) (x :: xs)), rts_eq _⟩,
        rts_close _⟩
  · intro hl
    have hrd : m.round_duration program d = 0 := by
      unfold NoteMapper.round_duration
      rw [hl]
    rw [hrd, rts_eq]
    rw [show (8 : ℚ) * 0 = ((0 : ℤ) : ℚ) by norm_num, pyRound_intCast]
    norm_num

theorem C4_witness :
    mapTabled.round_duration "tabled" (1/32) ∈ [(1/32 : ℚ)]
      ∧ round_to_sixteenth_note (mapTabled.round_duration "untabled" (1/4)) = 0 :=
  ⟨((C4_theorem mapTabled "tabled" (1/32)).1 [1/32] (by with_unfolding_all rfl)
      (by simp)).1,
   (C4_theorem mapTabled "untabled" (1/4)).2 (by with_unfolding_all rfl)⟩

/-- C7 (amended).  A decode failure of the caught kinds
(`TypeError`/`RuntimeWarning`) yields an empty dataframe, and so does a file
whose greatest recorded tick exceeds the `10000000` ceiling; but a read
failure of any other kind (e.g. a missing file's `IOError`) propagates, and a
decodable input with no extracted notes raises `ValueError` at
`max(self._text_sequence.items())`. -/
theorem C7_theorem (m : NoteMapper) (rq : ℚ) :
    convert_to_dataframe m rq (.error .typeErrorOrRuntimeWarning) = .ok []
      ∧ (∀ pat M,
          maxKey (extract_text_sequence m pat.resolution pat.tracks).text_sequence
              = some M →
          10000000 < M → convert_to_dataframe m rq (.ok pat) = .ok [])
      ∧ convert_to_dataframe m rq (.error .ioError) = .error .uncaughtReadError
      ∧ (∀ pat,
          (extract_text_sequence m pat.resolution pat.tracks).text_sequence = [] →
          convert_to_dataframe m rq (.ok pat) = .error .valueErrorMaxOfEmpty) := by
  refine ⟨rfl, ?_, rfl, ?_⟩
  · intro pat M hmax hM
    show convert_ok m rq pat = .ok []
    unfold convert_ok
    rw [hmax]
    simp [hM]
  · intro pat hempty
    show convert_ok m rq pat = .error .valueErrorMaxOfEmpty
    unfold convert_ok
    rw [show maxKey (extract_text_sequence m pat.resolution pat.tracks).text_sequence
          = none by rw [hempty]; rfl]

theorem C7_witness :
    convert_to_dataframe mapInst (1/4) (.ok patC7big) = .ok []
      ∧ convert_to_dataframe mapInst (1/4) (.error .typeErrorOrRuntimeWarning) = .ok [] :=
  ⟨(C7_theorem mapInst (1/4)).2.1 patC7big 20000000 (by with_unfolding_all rfl)
      (by norm_num),
   (C7_theorem mapInst (1/4)).1⟩

theorem noteOn_eq (m : NoteMapper) (res : ℕ) (st : ReaderState) (prog : Option ℤ)
    (t ch p v : ℕ) (hv : 0 < v) :
    process_midi_event m res st (.noteOn t ch p v) prog
      = ({ st with on_notes := odInsert st.on_notes p t },
         some (if ch = MIDI_DRUM_CHANNEL then DEFAULT_MIDI_PROGRAM_NUM
               else match prog with | none => 1 | some q => q)) := by
  simp only [process_midi_event, if_pos hv]

theorem noteOff_eq (m : NoteMapper) (res : ℕ) (st : ReaderState) (prog : Option ℤ)
    (t ch p : ℕ) :
    process_midi_event m res st (.noteOff t ch p) prog
      = (process_note_off m res st p
            (if ch = MIDI_DRUM_CHANNEL then DEFAULT_MIDI_PROGRAM_NUM
             else match prog with | none => 1 | some q => q) t,
         some (if ch = MIDI_DRUM_CHANNEL then DEFAULT_MIDI_PROGRAM_NUM
               else match prog with | none => 1 | some q => q)) := rfl

theorem note_off_text_or (m : NoteMapper) (res : ℕ) (st : ReaderState)
    (note : ℕ) (pn : ℤ) (tick s : ℕ)
    (hpend : st.on_notes.lookup note = some s) :
    (process_note_off m res st note pn tick).text_sequence = st.text_sequence
      ∨ ∃ sym dur,
          (process_note_off m res st note pn tick).text_sequence
            = dictAppend st.text_sequence s ⟨m.get_program_name pn, sym, dur⟩ := by
  unfold process_note_off
  rw [hpend]
  dsimp only
  split
  · split
    · exact Or.inr ⟨_, _, rfl⟩
    · exact Or.inl rfl
  · exact Or.inl rfl

theorem note_off_clears (m : NoteMapper) (res : ℕ) (st : ReaderState)
    (note : ℕ) (pn : ℤ) (tick s : ℕ)
    (hpend : st.on_notes.lookup note = some s) :
    (process_note_off m res st note pn tick).on_notes = dictDel st.on_notes note := by
  unfold process_note_off
  rw [hpend]
  dsimp only
  split
  · split <;> rfl
  · rfl

/-- C9.  At most one pending note per pitch, last-on-wins: starting from
any state with no pending note for pitch `p`, after the first note-on the
pending entry for `p` is its start tick `t1`; a second note-on silently
overwrites it with `t2`, emitting nothing; and the closing note-off emits at
most one batch of tokens, recorded at start tick `t2` — never at `t1` — and
clears the pending entry.  (`processTrack` is the reader's per-track event
fold.) -/
theorem C9_theorem (m : NoteMapper) (res : ℕ) (st : ReaderState) (prog : Option ℤ)
    (ch p t1 t2 t3 v1 v2 : ℕ) (hv1 : 0 < v1) (hv2 : 0 < v2)
    (h0 : st.on_notes.lookup p = none) :
    (processTrack m res (st, prog) [.noteOn t1 ch p v1]).1.on_notes.lookup p = some t1
      ∧ (processTrack m res (st, prog) [.noteOn t1 ch p v1]).1.text_sequence
          = st.text_sequence
      ∧ (processTrack m res (st, prog)
            [.noteOn t1 ch p v1, .noteOn t2 ch p v2]).1.on_notes.lookup p = some t2
      ∧ (processTrack m res (st, prog)
            [.noteOn t1 ch p v1, .noteOn t2 ch p v2]).1.text_sequence = st.text_sequence
      ∧ ((processTrack m res (st, prog)
            [.noteOn t1 ch p v1, .noteOn t2 ch p v2, .noteOff t3 ch p]).1.text_sequence
              = st.text_sequence
          ∨ ∃ sym dur,
            (processTrack m res (st, prog)
              [.noteOn t1 ch p v1, .noteOn t2 ch p v2, .noteOff t3 ch p]).1.text_sequence
              = dictAppend st.text_sequence t2
                  ⟨m.get_program_name
                      (if ch = MIDI_DRUM_CHANNEL then DEFAULT_MIDI_PROGRAM_NUM
                       else match prog with | none => 1 | some q => q),
                    sym, dur⟩)
      ∧ (processTrack m res (st, prog)
            [.noteOn t1 ch p v1, .noteOn t2 ch p v2, .noteOff t3 ch p]).1.on_notes.lookup p
          = none := by
  have hpend2 : (odInsert (odInsert st.on_notes p t1) p t2).lookup p = some t2 :=
    lookup_odInsert_self _ _ _
  simp only [processTrack, List.foldl_cons, List.foldl_nil,
    noteOn_eq m res _ _ _ _ _ _ hv1, noteOn_eq m res _ _ _ _ _ _ hv2, noteOff_eq]
  by_cases hch : ch = MIDI_DRUM_CHANNEL
  all_goals
    first
      | simp only [if_pos hch]
      | simp only [if_neg hch]
    refine ⟨lookup_odInsert_self _ _ _, by trivial, lookup_odInsert_self _ _ _,
      by trivial, ?_, ?_⟩
    · refine note_off_text_or m res _ p _ t3 t2 ?_
      exact hpend2
    · rw [note_off_clears m res _ p _ t3 t2 (by exact hpend2)]
      exact lookup_dictDel_self _ _

theorem C9_witness :
    (processTrack mapInst 120 (stEmpty, none) [.noteOn 0 0 60 100]).1.on_notes.lookup 60
        = some 0
      ∧ (processTrack mapInst 120 (stEmpty, none)
            [.noteOn 0 0 60 100, .noteOn 5 0 60 100]).1.on_notes.lookup 60 = some 5
      ∧ (processTrack mapInst 120 (stEmpty, none)
            [.noteOn 0 0 60 100, .noteOn 5 0 60 100, .noteOff 50 0 60]).1.on_notes.lookup 60
          = none := by
  obtain ⟨h1, -, h3, -, -, h6⟩ :=
    C9_theorem mapInst 120 stEmpty none 0 60 0 5 50 100 100 (by norm_num) (by norm_num) rfl
  exact ⟨h1, h3, h6⟩

/-- C10 (amended).  A note that completes while its track's program is
still unset (`None` — no program-change *and no prior note event* has fixed
it) is attributed to program 1: on a non-drum channel the note-on defaults
the program to `1`, and any token the closing note-off emits carries
instrument `midi_to_text 1`; on the drum channel the program becomes the
percussion sentinel `-1` and any emitted token carries `"percussion"`.
(The original claim, quantified over *all* tracks without program changes,
fails when a drum-channel note precedes the melodic note on the same track;
see the counterexample.) -/
theorem C10_theorem (m : NoteMapper) (res : ℕ) (st : ReaderState)
    (ch p t1 t2 v : ℕ) (hv : 0 < v) (h0 : st.on_notes.lookup p = none) :
    (ch ≠ MIDI_DRUM_CHANNEL →
        (processTrack m res (st, none) [.noteOn t1 ch p v]).2 = some 1
        ∧ ((processTrack m res (st, none)
              [.noteOn t1 ch p v, .noteOff t2 ch p]).1.text_sequence = st.text_sequence
          ∨ ∃ sym dur,
            (processTrack m res (st, none)
              [.noteOn t1 ch p v, .noteOff t2 ch p]).1.text_sequence
              = dictAppend st.text_sequence t1 ⟨m.midi_to_text 1, sym, dur⟩))
      ∧ (ch = MIDI_DRUM_CHANNEL →
        (processTrack m res (st, none) [.noteOn t1 ch p v]).2 = some (-1)
        ∧ ((processTrack m res (st, none)
              [.noteOn t1 ch p v, .noteOff t2 ch p]).1.text_sequence = st.text_sequence
          ∨ ∃ sym dur,
            (processTrack m res (st, none)
              [.noteOn t1 ch p v, .noteOff t2 ch p]).1.text_sequence
              = dictAppend st.text_sequence t1 ⟨"percussion", sym, dur⟩)) := by
  have hpend : (odInsert st.on_notes p t1).lookup p = some t1 :=
    lookup_odInsert_self _ _ _
  simp only [processTrack, List.foldl_cons, List.foldl_nil,
    noteOn_eq m res _ _ _ _ _ _ hv, noteOff_eq]
  constructor
  · intro hch
    simp only [if_neg hch]
    refine ⟨by trivial, ?_⟩
    rw [show (m.midi_to_text 1 : String) = m.get_program_name 1 from rfl]
    refine note_off_text_or m res _ p 1 t2 t1 ?_
    exact hpend
  · intro hch
    simp only [if_pos hch]
    refine ⟨by trivial, ?_⟩
    rw [show "percussion" = m.get_program_name DEFAULT_MIDI_PROGRAM_NUM from rfl]
    refine note_off_text_or m res _ p DEFAULT_MIDI_PROGRAM_NUM t2 t1 ?_
    exact hpend

theorem C10_witness :
    (processTrack mapPiano 120 (stEmpty, none) [.noteOn 0 0 60 100]).2 = some 1 := by
  obtain ⟨h, -⟩ :=
    (C10_theorem mapPiano 120 stEmpty 0 60 0 40 100 (by norm_num) rfl).1 (by decide)
  exact h

theorem go_first_le {α : Type} (t k : ℕ) (v a b : α) (l : List (ℕ × α)) (h : k ≤ t) :
    get_value_at_go t a ((k, v) :: l) = get_value_at_go t b ((k, v) :: l) := by
  simp [get_value_at_go, if_pos h]

/-- C5.  On a nonempty timeline whose keys are strictly ascending,
`_get_value_at_timestamp` returns a value `v` such that: if the query
precedes the first key, `v` is the first value; `v` is the value of the
latest record with key `≤ t` whenever such a record exists; and if the query
is at or after the last key, `v` is the last value. -/
theorem C5_theorem {α : Type} (k0 : ℕ) (v0 : α) (rest : List (ℕ × α)) (t : ℕ)
    (hsort : (((k0, v0) :: rest).map Prod.fst).Pairwise (· < ·)) :
    ∃ v, get_value_at_timestamp ((k0, v0) :: rest) t = some v
      ∧ (t < k0 → v = v0)
      ∧ (∀ q ∈ (k0, v0) :: rest, q.1 ≤ t →
            (∀ r ∈ (k0, v0) :: rest, r.1 ≤ t → r.1 ≤ q.1) → v = q.2)
      ∧ ((((k0, v0) :: rest).getLast (List.cons_ne_nil _ _)).1 ≤ t →
            v = (((k0, v0) :: rest).getLast (List.cons_ne_nil _ _)).2) := by
  induction rest generalizing k0 v0 with
  | nil =>
    refine ⟨v0, ?_, fun _ => rfl, ?_, ?_⟩
    · show some (get_value_at_go t v0 [(k0, v0)]) = some v0
      by_cases h : k0 ≤ t <;> simp [get_value_at_go, h]
    · intro q hq _ _
      rw [List.mem_singleton.mp hq]
    · intro _
      rfl
  | cons b rs ih =>
    obtain ⟨k1, v1⟩ := b
    rw [List.map_cons, List.pairwise_cons] at hsort
    have h0all : ∀ x ∈ ((k1, v1) :: rs).map Prod.fst, k0 < x := hsort.1
    have h01 : k0 < k1 := hsort.1 k1 (by simp)
    have htail := hsort.2
    have htail' : ((k1, v1) :: rs).map Prod.fst |>.Pairwise (· < ·) := by
      simpa using htail
    have hk1all : ∀ q ∈ (k1, v1) :: rs, k1 ≤ q.1 := by
      intro q hq
      rcases List.mem_cons.mp hq with h | h
      · rw [h]
      · exact le_of_lt ((List.pairwise_cons.mp htail').1 q.1
          (List.mem_map_of_mem Prod.fst h))
    have hlast_cons :
        (((k0, v0) :: (k1, v1) :: rs).getLast (List.cons_ne_nil _ _))
          = (((k1, v1) :: rs).getLast (List.cons_ne_nil _ _)) :=
      List.getLast_cons (List.cons_ne_nil _ _)
    by_cases h0 : k0 ≤ t
    · by_cases h1 : k1 ≤ t
      · obtain ⟨w, hw, -, hw2, hw3⟩ := ih k1 v1 htail'
        have hwval : w = get_value_at_go t v1 ((k1, v1) :: rs) :=
          (Option.some.inj hw).symm
        refine ⟨w, ?_, ?_, ?_, ?_⟩
        · show some (get_value_at_go t v0 ((k0, v0) :: (k1, v1) :: rs)) = some w
          rw [show get_value_at_go t v0 ((k0, v0) :: (k1, v1) :: rs)
                = get_value_at_go t v0 ((k1, v1) :: rs) by
              simp [get_value_at_go, if_pos h0]]
          rw [go_first_le t k1 v1 v0 v1 rs h1, ← hwval]
        · intro ht
          omega
        · intro q hq hqt hmax
          rcases List.mem_cons.mp hq with h | h
          · exfalso
            have := hmax (k1, v1) (by simp) h1
            rw [h] at this
            simp at this
            omega
          · exact hw2 q h hqt (fun r hr hrt => hmax r (List.mem_cons_of_mem _ hr) hrt)
        · intro hlt
          rw [hlast_cons] at hlt ⊢
          exact hw3 hlt
      · refine ⟨v0, ?_, fun _ => rfl, ?_, ?_⟩
        · show some (get_value_at_go t v0 ((k0, v0) :: (k1, v1) :: rs)) = some v0
          simp [get_value_at_go, if_pos h0, if_neg h1]
        · intro q hq hqt _
          rcases List.mem_cons.mp hq with h | h
          · rw [h]
          · exfalso
            have := hk1all q h
            omega
        · intro hlt
          exfalso
          rw [hlast_cons] at hlt
          have := hk1all _ (List.getLast_mem (List.cons_ne_nil _ _))
          omega
    · refine ⟨v0, ?_, fun _ => rfl, ?_, ?_⟩
      · show some (get_value_at_go t v0 ((k0, v0) :: (k1, v1) :: rs)) = some v0
        simp [get_value_at_go, if_neg h0]
      · intro q hq hqt _
        rcases List.mem_cons.mp hq with h | h
        · rw [h]
        · exfalso
          have := h0all q.1 (List.mem_map_of_mem Prod.fst h)
          omega
      · intro hlt
        exfalso
        rw [hlast_cons] at hlt
        have := h0all _ (List.mem_map_of_mem Prod.fst
          (List.getLast_mem (List.cons_ne_nil ((k1, v1)) rs)))
        omega

theorem C5_witness :
    get_value_at_timestamp [(5, "a"), (10, "b")] 7 = some "a" := by
  obtain ⟨v, hv, -, h3, -⟩ := C5_theorem 5 "a" [(10, "b")] 7 (by simp)
  have : v = "a" := by
    refine h3 (5, "a") (by simp) (by norm_num) ?_
    intro r hr hrt
    rcases List.mem_cons.mp hr with h | h
    · rw [h]
    · rw [List.mem_singleton.mp h] at hrt
      norm_num at hrt
  rw [hv, this]

theorem insertByKey_perm {α : Type} (p : ℕ × α) (l : List (ℕ × α)) :
    List.Perm (insertByKey p l) (p :: l) := by
  induction l with
  | nil => rfl
  | cons q rest ih =>
    unfold insertByKey
    split
    · rfl
    · exact ((ih.cons q).trans (List.Perm.swap p q rest)).symm.symm

theorem sortByKey_perm {α : Type} (l : List (ℕ × α)) : List.Perm (sortByKey l) l := by
  induction l with
  | nil => rfl
  | cons p rest ih =>
    exact (insertByKey_perm p (sortByKey rest)).trans (ih.cons p)

theorem insertByKey_sorted {α : Type} (p : ℕ × α) (l : List (ℕ × α))
    (h : l.Pairwise (fun a b => a.1 ≤ b.1)) :
    (insertByKey p l).Pairwise (fun a b => a.1 ≤ b.1) := by
  induction l with
  | nil => simp [insertByKey]
  | cons q rest ih =>
    unfold insertByKey
    rw [List.pairwise_cons] at h
    split
    · rename_i hpq
      rw [List.pairwise_cons]
      refine ⟨?_, List.pairwise_cons.mpr h⟩
      intro a ha
      rcases List.mem_cons.mp ha with h' | h'
      · rw [h']; exact hpq
      · exact le_trans hpq (h.1 a h')
    · rename_i hpq
      rw [List.pairwise_cons]
      refine ⟨?_, ih h.2⟩
      intro a ha
      rcases List.mem_cons.mp ((insertByKey_perm p rest).mem_iff.mp ha) with h2 | h2
      · rw [h2]; omega
      · exact h.1 a h2

theorem sortByKey_sorted {α : Type} (l : List (ℕ × α)) :
    (sortByKey l).Pairwise (fun a b => a.1 ≤ b.1) := by
  induction l with
  | nil => simp [sortByKey]
  | cons p rest ih => exact insertByKey_sorted p (sortByKey rest) ih

theorem lookup_isSome_iff {α : Type} (d : List (ℕ × α)) (k : ℕ) :
    (d.lookup k).isSome = true ↔ k ∈ d.map Prod.fst := by
  induction d with
  | nil => simp [List.lookup]
  | cons a tl ih =>
    obtain ⟨a1, a2⟩ := a
    by_cases h : k = a1
    · simp [List.lookup, h]
    · simp [List.lookup, show (k == a1) = false from beq_false_of_ne h, h, ih]

theorem lookup_eq_none_iff {α : Type} (d : List (ℕ × α)) (k : ℕ) :
    d.lookup k = none ↔ k ∉ d.map Prod.fst := by
  rw [← lookup_isSome_iff]
  cases d.lookup k <;> simp

theorem keys_odInsert {α : Type} (d : List (ℕ × α)) (k : ℕ) (v : α) :
    (odInsert d k v).map Prod.fst
      = if (d.lookup k).isSome then d.map Prod.fst else d.map Prod.fst ++ [k] := by
  unfold odInsert
  split
  · rw [List.map_map]
    refine List.map_congr_left ?_
    intro p _
    by_cases h : p.1 = k <;> simp [h]
  · simp

theorem foldl_max_le (ks : List ℕ) : ∀ a, a ≤ ks.foldl Nat.max a
    ∧ ∀ k ∈ ks, k ≤ ks.foldl Nat.max a := by
  induction ks with
  | nil => intro a; simp
  | cons b ks ih =>
    intro a
    obtain ⟨h1, h2⟩ := ih (Nat.max a b)
    refine ⟨le_trans (Nat.le_max_left a b) h1, ?_⟩
    intro k hk
    rcases List.mem_cons.mp hk with h | h
    · rw [h]
      exact le_trans (Nat.le_max_right a b) h1
    · exact h2 k h

theorem maxKey_spec {α : Type} (d : List (ℕ × α)) (M : ℕ)
    (h : maxKey d = some M) : ∀ k ∈ d.map Prod.fst, k ≤ M := by
  unfold maxKey at h
  intro k hk
  rcases hd : d.map Prod.fst with _ | ⟨k0, ks⟩
  · rw [hd] at hk; simp at hk
  · rw [hd] at h hk
    simp only [Option.some.injEq] at h
    obtain ⟨h1, h2⟩ := foldl_max_le ks k0
    rcases List.mem_cons.mp hk with h' | h'
    · subst h'; omega
    · have := h2 k h'; omega

theorem create_step_keys (tq : ℕ)
    (P : ℕ → Prop)
    (l : List (ℕ × List NoteToken)) :
    ∀ acc : List (ℕ × List NoteToken),
      (∀ k ∈ acc.map Prod.fst, P k) →
      (∀ p ∈ l, P (round_down p.1 tq)) →
      ∀ k ∈ ((l.foldl
          (fun seq p =>
            if 0 < p.2.length then
              match seq.lookup (round_down p.1 tq) with
              | some existing => odInsert seq (round_down p.1 tq) (existing ++ p.2)
              | none => seq ++ [(round_down p.1 tq, p.2)]
            else seq) acc)).map Prod.fst, P k := by
  induction l with
  | nil => intro acc hacc _ k hk; exact hacc k hk
  | cons p l ih =>
    intro acc hacc hl k hk
    rw [List.foldl_cons] at hk
    refine ih _ ?_ (fun q hq => hl q (List.mem_cons_of_mem _ hq)) k hk
    intro k' hk'
    by_cases hlen : 0 < p.2.length
    · rw [if_pos hlen] at hk'
      rcases hlu : acc.lookup (round_down p.1 tq) with _ | ex
      · rw [hlu] at hk'
        simp only [List.map_append, List.map_cons, List.map_nil, List.mem_append] at hk'
        rcases hk' with h | h
        · exact hacc k' h
        · rw [List.mem_singleton.mp h]
          exact hl p (List.mem_cons_self _ _)
      · rw [hlu] at hk'
        rw [keys_odInsert, if_pos (by rw [hlu]; rfl)] at hk'
        exact hacc k' hk'
    · rw [if_neg hlen] at hk'
      exact hacc k' hk'

theorem create_keys_spec (ts : List (ℕ × List NoteToken)) (tq : ℕ) :
    ∀ k ∈ (create_timestamp_sequence ts tq).map Prod.fst,
      ∃ t0 ∈ ts.map Prod.fst, k = round_down t0 tq := by
  unfold create_timestamp_sequence
  refine create_step_keys tq _ (sortByKey ts) [] (by simp) ?_
  intro p hp
  exact ⟨p.1, List.mem_map_of_mem Prod.fst ((sortByKey_perm ts).mem_iff.mp hp), rfl⟩

theorem create_step_nodup (tq : ℕ) (l : List (ℕ × List NoteToken)) :
    ∀ acc : List (ℕ × List NoteToken),
      (acc.map Prod.fst).Nodup →
      ((l.foldl
          (fun seq p =>
            if 0 < p.2.length then
              match seq.lookup (round_down p.1 tq) with
              | some existing => odInsert seq (round_down p.1 tq) (existing ++ p.2)
              | none => seq ++ [(round_down p.1 tq, p.2)]
            else seq) acc).map Prod.fst).Nodup := by
  induction l with
  | nil => intro acc hacc; exact hacc
  | cons p l ih =>
    intro acc hacc
    rw [List.foldl_cons]
    refine ih _ ?_
    by_cases hlen : 0 < p.2.length
    · rw [if_pos hlen]
      rcases hlu : acc.lookup (round_down p.1 tq) with _ | ex
      · simp only [List.map_append, List.map_cons, List.map_nil]
        rw [List.nodup_append]
        refine ⟨hacc, List.nodup_singleton _, ?_⟩
        intro a ha hb
        rw [List.mem_singleton.mp hb] at ha
        exact absurd hlu (by rw [← Option.not_isSome_iff_eq_none, lookup_isSome_iff]; simp [ha])
    
      · rw [keys_odInsert, if_pos (by rw [hlu]; rfl)]
        exact hacc
    · rw [if_neg hlen]
      exact hacc

theorem create_keys_nodup (ts : List (ℕ × List NoteToken)) (tq : ℕ) :
    ((create_timestamp_sequence ts tq).map Prod.fst).Nodup := by
  unfold create_timestamp_sequence
  exact create_step_nodup tq (sortByKey ts) [] (by simp)

theorem fill_split_aux (l : List ℕ) :
    ∀ seq : List (ℕ × NotesField),
      ∃ extra, (l.foldl
          (fun seq i =>
            if (seq.lookup i).isSome then seq else seq ++ [(i, NotesField.rest)]) seq)
          = seq ++ extra
        ∧ (∀ e ∈ extra, e.2 = NotesField.rest)
        ∧ (∀ e ∈ extra, e.1 ∈ l) := by
  induction l with
  | nil => intro seq; exact ⟨[], by simp, by simp, by simp⟩
  | cons i l ih =>
    intro seq
    rw [List.foldl_cons]
    by_cases h : (seq.lookup i).isSome
    · rw [if_pos h]
      obtain ⟨extra, h1, h2, h3⟩ := ih seq
      exact ⟨extra, h1, h2, fun e he => List.mem_cons_of_mem _ (h3 e he)⟩
    · rw [if_neg h]
      obtain ⟨extra, h1, h2, h3⟩ := ih (seq ++ [(i, NotesField.rest)])
      refine ⟨(i, NotesField.rest) :: extra, by rw [h1]; simp, ?_, ?_⟩
      · intro e he
        rcases List.mem_cons.mp he with h4 | h4
        · rw [h4]
        · exact h2 e h4
      · intro e he
        rcases List.mem_cons.mp he with h4 | h4
        · rw [h4]; exact List.mem_cons_self _ _
        · exact List.mem_cons_of_mem _ (h3 e h4)

theorem fill_split (seq : List (ℕ × NotesField)) (M tq : ℕ) :
    ∃ extra, fillRests seq M tq = seq ++ extra
      ∧ (∀ e ∈ extra, e.2 = NotesField.rest)
      ∧ (∀ e ∈ extra, e.1 ∈ pyRange (M + tq) tq) :=
  fill_split_aux (pyRange (M + tq) tq) seq

theorem fill_keys_mono (l : List ℕ) :
    ∀ seq : List (ℕ × NotesField), ∀ k ∈ seq.map Prod.fst,
      k ∈ ((l.foldl
          (fun seq i =>
            if (seq.lookup i).isSome then seq else seq ++ [(i, NotesField.rest)]) seq)).map
        Prod.fst := by
  intro seq k hk
  obtain ⟨extra, h1, -, -⟩ := fill_split_aux l seq
  rw [h1]
  simp only [List.map_append, List.mem_append]
  exact Or.inl hk

theorem fill_keys_grid (l : List ℕ) :
    ∀ seq : List (ℕ × NotesField), ∀ g ∈ l,
      g ∈ ((l.foldl
          (fun seq i =>
            if (seq.lookup i).isSome then seq else seq ++ [(i, NotesField.rest)]) seq)).map
        Prod.fst := by
  induction l with
  | nil => intro seq g hg; simp at hg
  | cons i l ih =>
    intro seq g hg
    rw [List.foldl_cons]
    rcases List.mem_cons.mp hg with h | h
    · rw [h]
      by_cases hi : (seq.lookup i).isSome
      · rw [if_pos hi]
        exact fill_keys_mono l seq i ((lookup_isSome_iff seq i).mp hi)
      · rw [if_neg hi]
        exact fill_keys_mono l _ i (by simp)
    · by_cases hi : (seq.lookup i).isSome
      · rw [if_pos hi]; exact ih seq g h
      · rw [if_neg hi]; exact ih _ g h

theorem fill_nodup (seq : List (ℕ × NotesField)) (M tq : ℕ)
    (h : (seq.map Prod.fst).Nodup) :
    ((fillRests seq M tq).map Prod.fst).Nodup := by
  unfold fillRests
  revert seq
  induction pyRange (M + tq) tq with
  | nil => intro seq h; exact h
  | cons i l ih =>
    intro seq h
    rw [List.foldl_cons]
    by_cases hi : (seq.lookup i).isSome
    · rw [if_pos hi]; exact ih seq h
    · rw [if_neg hi]
      refine ih _ ?_
      simp only [List.map_append, List.map_cons, List.map_nil]
      rw [List.nodup_append]
      refine ⟨h, List.nodup_singleton _, ?_⟩
      intro a ha hb
      rw [List.mem_singleton.mp hb] at ha
      exact absurd ((lookup_isSome_iff seq i).mpr ha) hi

theorem pyRange_eq (M tq : ℕ) (h : 0 < tq) :
    pyRange (M + tq) tq
      = (List.range ((M + tq - 1) / tq + 1)).map (· * tq) := by
  unfold pyRange
  rw [if_neg (by omega)]
  rw [show M + tq + tq - 1 = (M + tq - 1) + tq by omega, Nat.add_div_right _ h]

theorem gridTarget_nodup (n tq : ℕ) (h : 0 < tq) :
    ((List.range n).map (· * tq)).Nodup := by
  refine List.Nodup.map ?_ (List.nodup_range n)
  intro a b hab
  exact Nat.eq_of_mul_eq_mul_right h hab

theorem gridTarget_sorted (n tq : ℕ) :
    ((List.range n).map (· * tq)).Pairwise (· ≤ ·) := by
  rw [List.pairwise_map]
  exact (List.pairwise_lt_range n).imp (fun hab => Nat.mul_le_mul_right tq (le_of_lt hab))

theorem round_down_mem_grid (t0 M tq : ℕ) (h : 0 < tq) (ht : t0 ≤ M) :
    round_down t0 tq ∈ (List.range ((M + tq - 1) / tq + 1)).map (· * tq) := by
  have hdm := Nat.div_add_mod t0 tq
  have hcomm : tq * (t0 / tq) = (t0 / tq) * tq := Nat.mul_comm _ _
  have hrd : round_down t0 tq = (t0 / tq) * tq := by
    unfold round_down
    rw [if_neg (by omega)]
    omega
  rw [hrd]
  simp only [List.mem_map, List.mem_range]
  refine ⟨t0 / tq, ?_, rfl⟩
  have h1 : t0 / tq ≤ M / tq := Nat.div_le_div_right ht
  have h2 : M / tq ≤ (M + tq - 1) / tq := Nat.div_le_div_right (by omega)
  omega

theorem buildRowsAux_pairs (rq : ℚ) (sig_tl : List (ℕ × TimeSignature))
    (bpm_tl : List (ℕ × ℚ)) :
    ∀ (l : List (ℕ × NotesField)) (st : MBState) (i : ℕ),
      (buildRowsAux rq sig_tl bpm_tl st i l).map (fun r => (r.timestamp, r.notes)) = l := by
  intro l
  induction l with
  | nil => intro st i; rfl
  | cons p l ih =>
    intro st i
    show ((rowStep rq sig_tl bpm_tl st i p).1.timestamp,
        (rowStep rq sig_tl bpm_tl st i p).1.notes)
      :: (buildRowsAux rq sig_tl bpm_tl (rowStep rq sig_tl bpm_tl st i p).2 (i + 1) l).map
          (fun r => (r.timestamp, r.notes)) = p :: l
    rw [ih]
    show (p.1, p.2) :: l = p :: l
    rw [Prod.mk.eta]

theorem buildRowsAux_length (rq : ℚ) (sig_tl : List (ℕ × TimeSignature))
    (bpm_tl : List (ℕ × ℚ)) :
    ∀ (l : List (ℕ × NotesField)) (st : MBState) (i : ℕ),
      (buildRowsAux rq sig_tl bpm_tl st i l).length = l.length := by
  intro l
  induction l with
  | nil => intro st i; rfl
  | cons p l ih =>
    intro st i
    show (buildRowsAux rq sig_tl bpm_tl (rowStep rq sig_tl bpm_tl st i p).2 (i + 1) l).length + 1
      = l.length + 1
    rw [ih]

theorem buildRowsAux_timestamps (rq : ℚ) (sig_tl : List (ℕ × TimeSignature))
    (bpm_tl : List (ℕ × ℚ)) (l : List (ℕ × NotesField)) (st : MBState) (i : ℕ) :
    (buildRowsAux rq sig_tl bpm_tl st i l).map (fun r => r.timestamp) = l.map Prod.fst := by
  have h := buildRowsAux_pairs rq sig_tl bpm_tl l st i
  have h2 : ((buildRowsAux rq sig_tl bpm_tl st i l).map
      (fun r => (r.timestamp, r.notes))).map Prod.fst = l.map Prod.fst := by rw [h]
  rw [List.map_map] at h2
  exact h2

theorem gridRows_spec (ts : List (ℕ × List NoteToken)) (tq M : ℕ)
    (sig_tl : List (ℕ × TimeSignature)) (bpm_tl : List (ℕ × ℚ)) (rq : ℚ)
    (htq : 0 < tq) (hmax : maxKey ts = some M) :
    (buildRows rq sig_tl bpm_tl
        (sortByKey (fillRests
          ((create_timestamp_sequence ts tq).map (fun p => (p.1, NotesField.tokens p.2)))
          M tq))).map (fun r => r.timestamp)
        = (List.range ((M + tq - 1) / tq + 1)).map (· * tq)
      ∧ ∀ r ∈ buildRows rq sig_tl bpm_tl
          (sortByKey (fillRests
            ((create_timestamp_sequence ts tq).map (fun p => (p.1, NotesField.tokens p.2)))
            M tq)),
          r.timestamp ∉ (create_timestamp_sequence ts tq).map Prod.fst →
          r.notes = NotesField.rest := by
  set merged := create_timestamp_sequence ts tq with hmg
  set seq0 := merged.map (fun p => (p.1, NotesField.tokens p.2)) with hs0
  set filled := fillRests seq0 M tq with hfil
  set steps := sortByKey filled with hsteps
  set n := (M + tq - 1) / tq + 1 with hn
  set grid := (List.range n).map (· * tq) with hgrid
  have hkeys_seq0 : seq0.map Prod.fst = merged.map Prod.fst := by
    rw [hs0, List.map_map]
    exact List.map_congr_left (fun p _ => rfl)
  have hgrid_of_pyRange : pyRange (M + tq) tq = grid := by
    rw [hgrid, hn]
    exact pyRange_eq M tq htq
  have h1 : ∀ k ∈ filled.map Prod.fst, k ∈ grid := by
    intro k hk
    rw [hfil] at hk
    obtain ⟨extra, he1, -, he3⟩ := fill_split seq0 M tq
    rw [he1] at hk
    simp only [List.map_append, List.mem_append] at hk
    rcases hk with hk | hk
    · rw [hkeys_seq0, hmg] at hk
      obtain ⟨t0, ht0, hkeq⟩ := create_keys_spec ts tq k hk
      rw [hgrid, hn, hkeq]
      exact round_down_mem_grid t0 M tq htq (maxKey_spec ts M hmax t0 ht0)
    · obtain ⟨e, hee, heq⟩ := List.mem_map.mp hk
      rw [← heq, ← hgrid_of_pyRange]
      exact he3 e hee
  have h2 : ∀ g ∈ grid, g ∈ filled.map Prod.fst := by
    intro g hg
    rw [hfil]
    exact fill_keys_grid (pyRange (M + tq) tq) seq0 g (by rw [hgrid_of_pyRange]; exact hg)
  have h3 : (filled.map Prod.fst).Nodup := by
    rw [hfil]
    refine fill_nodup seq0 M tq ?_
    rw [hkeys_seq0, hmg]
    exact create_keys_nodup ts tq
  have hpermfst : List.Perm (steps.map Prod.fst) (filled.map Prod.fst) := by
    rw [hsteps]
    exact (sortByKey_perm filled).map Prod.fst
  have h4 : (steps.map Prod.fst).Nodup := hpermfst.nodup_iff.mpr h3
  have h5 : ∀ a, a ∈ steps.map Prod.fst ↔ a ∈ grid := by
    intro a
    constructor
    · intro ha
      exact h1 a (hpermfst.mem_iff.mp ha)
    · intro ha
      exact hpermfst.mem_iff.mpr (h2 a ha)
  have hperm : List.Perm (steps.map Prod.fst) grid :=
    (List.perm_ext_iff_of_nodup h4 (gridTarget_nodup n tq htq)).mpr h5
  have hsorted1 : (steps.map Prod.fst).Pairwise (· ≤ ·) := by
    rw [hsteps, List.pairwise_map]
    exact sortByKey_sorted filled
  have heq : steps.map Prod.fst = grid :=
    List.eq_of_perm_of_sorted hperm hsorted1 (gridTarget_sorted n tq)
  constructor
  · rw [show buildRows rq sig_tl bpm_tl steps
        = buildRowsAux rq sig_tl bpm_tl ⟨1, 1, none⟩ 0 steps from rfl]
    rw [buildRowsAux_timestamps]
    exact heq
  · intro r hr hnot
    have hpair : (r.timestamp, r.notes) ∈ steps := by
      rw [show buildRows rq sig_tl bpm_tl steps
          = buildRowsAux rq sig_tl bpm_tl ⟨1, 1, none⟩ 0 steps from rfl] at hr
      have := List.mem_map_of_mem (fun r => (r.timestamp, r.notes)) hr
      rwa [buildRowsAux_pairs] at this
    have hfilledpair : (r.timestamp, r.notes) ∈ filled := by
      refine (sortByKey_perm filled).mem_iff.mp ?_
      rw [← hsteps]
      exact hpair
    obtain ⟨extra, he1, he2, -⟩ := fill_split seq0 M tq
    rw [hfil, he1] at hfilledpair
    rcases List.mem_append.mp hfilledpair with hc | hc
    · exfalso
      apply hnot
      have hmem := List.mem_map_of_mem Prod.fst hc
      rwa [hkeys_seq0] at hmem
    · exact he2 _ hc

/-- C2.  On the success path (positive grid step `S`, greatest recorded
tick `M ≤ 10⁷`), the emitted rows' timestamps are exactly
`0, S, 2S, …, S·⌈M/S⌉` — every timestamp a multiple of `S`, contiguous and
gap-free up to the rounded-up maximum; every grid step that received no
tokens carries the `rest` sentinel; and the grid alignment
`_round_down` maps a raw tick to the greatest multiple of `S` that does not
exceed it (rounding down, not to nearest). -/
theorem C2_theorem (m : NoteMapper) (pat : Pattern) (rq : ℚ) (rows : List Row) (M : ℕ)
    (htq : 0 < timingTicks pat.resolution rq)
    (hmax : maxKey (extract_text_sequence m pat.resolution pat.tracks).text_sequence
        = some M)
    (hM : ¬ 10000000 < M)
    (hok : convert_to_dataframe m rq (.ok pat) = .ok rows) :
    rows.map (fun r => r.timestamp)
        = (List.range ((M + timingTicks pat.resolution rq - 1)
              / timingTicks pat.resolution rq + 1)).map (· * timingTicks pat.resolution rq)
      ∧ (∀ r ∈ rows, timingTicks pat.resolution rq ∣ r.timestamp)
      ∧ (∀ r ∈ rows,
          r.timestamp ∉ (create_timestamp_sequence
              (extract_text_sequence m pat.resolution pat.tracks).text_sequence
              (timingTicks pat.resolution rq)).map Prod.fst →
          r.notes = NotesField.rest)
      ∧ (∀ n0 : ℕ, round_down n0 (timingTicks pat.resolution rq) ≤ n0
          ∧ timingTicks pat.resolution rq ∣ round_down n0 (timingTicks pat.resolution rq)
          ∧ n0 < round_down n0 (timingTicks pat.resolution rq)
              + timingTicks pat.resolution rq) := by
  have hrows : rows = mainRows m rq pat M := by
    have hconv : convert_ok m rq pat = .ok rows := hok
    unfold convert_ok at hconv
    rw [hmax] at hconv
    dsimp only at hconv
    rw [if_neg hM] at hconv
    exact (Except.ok.inj hconv).symm
  obtain ⟨hts, hrest⟩ := gridRows_spec
    (extract_text_sequence m pat.resolution pat.tracks).text_sequence
    (timingTicks pat.resolution rq) M
    (extract_text_sequence m pat.resolution pat.tracks).time_signature_by_timestamp
    (extract_text_sequence m pat.resolution pat.tracks).bpm_by_timestamp
    rq htq hmax
  have hts' : rows.map (fun r => r.timestamp)
      = (List.range ((M + timingTicks pat.resolution rq - 1)
            / timingTicks pat.resolution rq + 1)).map (· * timingTicks pat.resolution rq) := by
    rw [hrows]
    exact hts
  refine ⟨hts', ?_, ?_, ?_⟩
  · intro r hr
    have hmem : r.timestamp ∈ (List.range ((M + timingTicks pat.resolution rq - 1)
          / timingTicks pat.resolution rq + 1)).map (· * timingTicks pat.resolution rq) := by
      rw [← hts']
      exact List.mem_map_of_mem (fun r => r.timestamp) hr
    obtain ⟨j, -, hj⟩ := List.mem_map.mp hmem
    exact ⟨j, by rw [← hj, Nat.mul_comm]⟩
  · intro r hr
    rw [hrows] at hr
    exact hrest r hr
  · intro n0
    have hdm := Nat.div_add_mod n0 (timingTicks pat.resolution rq)
    have hmlt := Nat.mod_lt n0 htq
    have hcomm : timingTicks pat.resolution rq * (n0 / timingTicks pat.resolution rq)
        = (n0 / timingTicks pat.resolution rq) * timingTicks pat.resolution rq :=
      Nat.mul_comm _ _
    refine ⟨?_, ⟨n0 / timingTicks pat.resolution rq, ?_⟩, ?_⟩
    · unfold round_down
      rw [if_neg (by omega)]
      omega
    · unfold round_down
      rw [if_neg (by omega)]
      omega
    · unfold round_down
      rw [if_neg (by omega)]
      omega

theorem gvat_singleton {α : Type} (x : α) (t : ℕ) :
    get_value_at_timestamp [(0, x)] t = some x := by
  show some (get_value_at_go t x [(0, x)]) = some x
  simp [get_value_at_go]

theorem rowStep_mb (sig_tl : List (ℕ × TimeSignature)) (bpm_tl : List (ℕ × ℚ))
    (st : MBState) (i : ℕ) (p : ℕ × NotesField)
    (hsig : get_value_at_timestamp sig_tl p.1 = some ⟨4, 4⟩) :
    ((rowStep (1/4) sig_tl bpm_tl st i p).1.measure,
        (rowStep (1/4) sig_tl bpm_tl st i p).1.beat) = (mbStep st i).1
      ∧ (rowStep (1/4) sig_tl bpm_tl st i p).2 = (mbStep st i).2 := by
  unfold rowStep mbStep
  dsimp only
  rw [hsig]
  norm_num

theorem buildRowsAux_mb (sig_tl : List (ℕ × TimeSignature)) (bpm_tl : List (ℕ × ℚ))
    (hsig : ∀ ts0, get_value_at_timestamp sig_tl ts0 = some ⟨4, 4⟩) :
    ∀ (l : List (ℕ × NotesField)) (st : MBState) (i : ℕ),
      (buildRowsAux (1/4) sig_tl bpm_tl st i l).map (fun r => (r.measure, r.beat))
        = mbSeq st i l.length := by
  intro l
  induction l with
  | nil => intro st i; rfl
  | cons p l ih =>
    intro st i
    obtain ⟨h1, h2⟩ := rowStep_mb sig_tl bpm_tl st i p (hsig p.1)
    show ((rowStep (1/4) sig_tl bpm_tl st i p).1.measure,
        (rowStep (1/4) sig_tl bpm_tl st i p).1.beat)
      :: (buildRowsAux (1/4) sig_tl bpm_tl (rowStep (1/4) sig_tl bpm_tl st i p).2 (i + 1)
            l).map (fun r => (r.measure, r.beat))
      = (mbStep st i).1 :: mbSeq (mbStep st i).2 (i + 1) l.length
    rw [h1, h2, ih]

theorem mbSeq_take : ∀ (j : ℕ) (st : MBState) (i n : ℕ), j ≤ n →
    (mbSeq st i n).take j = mbSeq st i j := by
  intro j
  induction j with
  | zero => intro st i n _; simp [mbSeq]
  | succ j ih =>
    intro st i n h
    cases n with
    | zero => omega
    | succ n =>
      show (mbStep st i).1 :: (mbSeq (mbStep st i).2 (i + 1) n).take j
        = (mbStep st i).1 :: mbSeq (mbStep st i).2 (i + 1) j
      rw [ih _ _ n (by omega)]

/-- C1.  For any input whose extraction sees a constant 4/4 time
signature (every meter lookup returns 4/4) under the default sixteenth-note
grid, the first 16 grid rows all carry `measure = 1` with `beat` climbing
`1, 1.25, …, 4.75`, and the 17th row carries `measure = 2`, `beat = 1`
(`mbC1Expected` lists exactly these pairs). -/
theorem C1_theorem (m : NoteMapper) (pat : Pattern) (rows : List Row)
    (hsig : ∀ ts0, get_value_at_timestamp
        (extract_text_sequence m pat.resolution pat.tracks).time_signature_by_timestamp ts0
        = some ⟨4, 4⟩)
    (hok : convert_to_dataframe m (1/4) (.ok pat) = .ok rows)
    (hlen : 17 ≤ rows.length) :
    (rows.take 17).map (fun r => (r.measure, r.beat)) = mbC1Expected := by
  have hconv : convert_ok m (1/4) pat = .ok rows := hok
  unfold convert_ok at hconv
  rcases hmax : maxKey (extract_text_sequence m pat.resolution pat.tracks).text_sequence
    with _ | M
  · rw [hmax] at hconv
    exact absurd hconv (by simp)
  · rw [hmax] at hconv
    dsimp only at hconv
    by_cases hM : 10000000 < M
    · rw [if_pos hM] at hconv
      have hnil : rows = [] := (Except.ok.inj hconv).symm
      rw [hnil] at hlen
      simp at hlen
    · rw [if_neg hM] at hconv
      have hrows : rows = mainRows m (1/4) pat M := (Except.ok.inj hconv).symm
      have hlen2 : 17 ≤ (sortByKey (fillRests
          ((create_timestamp_sequence
              (extract_text_sequence m pat.resolution pat.tracks).text_sequence
              (timingTicks pat.resolution (1/4))).map
            (fun p => (p.1, NotesField.tokens p.2)))
          M (timingTicks pat.resolution (1/4)))).length := by
        rw [hrows] at hlen
        unfold mainRows buildRows at hlen
        rw [buildRowsAux_length] at hlen
        exact hlen
      rw [hrows]
      unfold mainRows buildRows
      rw [List.map_take]
      rw [buildRowsAux_mb _ _ hsig]
      rw [mbSeq_take 17 _ 0 _ hlen2]
      with_unfolding_all decide

theorem C1_witness :
    (rowsC1.take 17).map (fun r => (r.measure, r.beat)) = mbC1Expected := by
  refine C1_theorem mapInst patC1 rowsC1 ?_ (by with_unfolding_all rfl)
    (by with_unfolding_all decide)
  intro ts0
  rw [show (extract_text_sequence mapInst patC1.resolution patC1.tracks).time_signature_by_timestamp
      = [(0, ⟨4, 4⟩)] by with_unfolding_all rfl]
  exact gvat_singleton _ ts0

theorem C2_witness :
    rowsC2.map (fun r => r.timestamp)
      = (List.range ((5 + timingTicks patC2.resolution (1/4) - 1)
            / timingTicks patC2.resolution (1/4) + 1)).map
          (· * timingTicks patC2.resolution (1/4)) :=
  (C2_theorem mapInst patC2 (1/4) rowsC2 5 (by with_unfolding_all decide)
    (by with_unfolding_all rfl) (by norm_num) (by with_unfolding_all rfl)).1
